import Mathlib

/-!
Verification of the LaTeX flattening tool (src/main.py) against its
specification.  Document Text is modelled as `List Char`; filesystem paths
as lists of path components (`List (List Char)`); the filesystem itself as
an explicit lookup function or an explicit list of existing files.  Every
regular-expression substitution of the source is embedded as a character
level scanner implementing the same leftmost, non-overlapping match
semantics as Python's `re.sub`/`re.finditer` for that concrete pattern.
Scanners whose recursion is not structural carry a fuel argument keyed to
the text length; since every recursive call strictly shortens the text,
fuel at least the text length never runs out.
-/

namespace LatexMerge

/-- Characters matched by Python's `\s` class (ASCII range), used by the
`\s*` parts of the source regexes and by `str.strip()`. -/
def isPySpace (c : Char) : Bool :=
  c = ' ' || c = '\t' || c = '\n' || c = '\r' || c = '\x0b' || c = '\x0c'

/-- `str.strip()` of Python: remove `\s` characters from both ends. -/
def pyStrip (s : List Char) : List Char :=
  ((s.dropWhile isPySpace).reverse.dropWhile isPySpace).reverse

/-- Consume the single character `c` at the head of the text. -/
def expectChar (c : Char) : List Char → Option (List Char)
  | [] => none
  | d :: t => if d = c then some t else none

/-- Consume the literal word `kw` at the head of the text. -/
def expectKw (kw : List Char) (t : List Char) : Option (List Char) :=
  if kw.isPrefixOf t then some (t.drop kw.length) else none

/-! ## Comment Stripper (`remove_comments`, src/main.py lines 11-20) -/

/-- One pass of `re.sub(r'(?<!\\)%.*?$', '', content, flags=re.MULTILINE)`:
scan left to right; a `%` whose immediately preceding character is not a
backslash starts a match that runs up to (but not including) the next
newline or the end of the text.  `prev` is the character immediately
before the scan position in the original text (`none` at the very start);
the `Bool` records that the scanner is inside a match, discarding
characters until the next newline. -/
def stripLineGo : Option Char → Bool → List Char → List Char
  | _, _, [] => []
  | prev, true, c :: t =>
    if c = '\n' then '\n' :: stripLineGo (some '\n') false t
    else stripLineGo prev true t
  | prev, false, c :: t =>
    if c = '%' then
      if prev = some '\\' then '%' :: stripLineGo (some '%') false t
      else stripLineGo prev true t
    else c :: stripLineGo (some c) false t

/-- The line-comment removal stage of `remove_comments`. -/
def stripLineComments (s : List Char) : List Char :=
  stripLineGo none false s

/-- Match `kw` then `\s*` then a brace, then `\s*`, then the literal
`comment`, then `\s*`, then a closing brace, at the head of `t` (which is
the text just after a backslash).  Returns the rest after the token.
Embeds the `\\begin\s*\{\s*comment\s*\}` and `\\end\s*\{\s*comment\s*\}`
parts of the block-comment regex of `remove_comments`. -/
def matchTokAux (kw : List Char) (t : List Char) : Option (List Char) := do
  let t1 ← expectKw kw t
  let t2 ← expectChar '\x7b' (t1.dropWhile isPySpace)
  let t3 ← expectKw ("comment".toList) (t2.dropWhile isPySpace)
  expectChar '\x7d' (t3.dropWhile isPySpace)

/-- Scan for the first `\end{comment}` token (with optional `\s*` inside,
as in the regex) and return the text after it; the `.*?` of the
block-comment regex runs under `re.DOTALL`, so any character may be
skipped. -/
def scanEnvEnd : List Char → Option (List Char)
  | [] => none
  | c :: t =>
    if c = '\\' then
      match matchTokAux ("end".toList) t with
      | some r => some r
      | none => scanEnvEnd t
    else scanEnvEnd t

/-- Fuelled scanner for `removeCommentEnv`; every recursive call strictly
shortens the text, so fuel at least the text length never runs out. -/
def removeCommentEnvGo : Nat → List Char → List Char
  | 0, s => s
  | _ + 1, [] => []
  | fuel + 1, c :: t =>
    if c = '\\' then
      match matchTokAux ("begin".toList) t with
      | some afterBegin =>
        match scanEnvEnd afterBegin with
        | some afterEnd => removeCommentEnvGo fuel afterEnd
        | none => c :: t
      | none => c :: removeCommentEnvGo fuel t
    else c :: removeCommentEnvGo fuel t

/-- One pass of
`re.sub(r'\\begin\s*\{\s*comment\s*\}.*?\\end\s*\{\s*comment\s*\}', '', content, flags=re.DOTALL)`:
for each `\begin{comment}` token found left to right, the shortest extent
ending in an `\end{comment}` token is removed; if a begin token has no end
token anywhere after it, no match can start there nor at any later
position, so the remaining text is kept as is. -/
def removeCommentEnv (s : List Char) : List Char :=
  removeCommentEnvGo s.length s

/-- Scan for the first `\fi` and return the text after it (the `.*?\\fi`
part of the `\iffalse` regex, under `re.DOTALL`). -/
def scanFi : List Char → Option (List Char)
  | [] => none
  | c :: t =>
    if c = '\\' then
      match expectKw ("fi".toList) t with
      | some r => some r
      | none => scanFi t
    else scanFi t

/-- Fuelled scanner for `removeIffalse`; every recursive call strictly
shortens the text. -/
def removeIffalseGo : Nat → List Char → List Char
  | 0, s => s
  | _ + 1, [] => []
  | fuel + 1, c :: t =>
    if c = '\\' then
      if ("iffalse".toList).isPrefixOf t then
        match scanFi (t.drop 7) with
        | some r => removeIffalseGo fuel r
        | none => c :: t
      else c :: removeIffalseGo fuel t
    else c :: removeIffalseGo fuel t

/-- One pass of `re.sub(r'\\iffalse.*?\\fi', '', content, flags=re.DOTALL)`:
each `\iffalse` found left to right is removed together with everything up
to and including the first subsequent `\fi`; an `\iffalse` with no `\fi`
anywhere after it admits no match there nor later. -/
def removeIffalse (s : List Char) : List Char :=
  removeIffalseGo s.length s

/-- `remove_comments` of src/main.py: removes line comments, then
`\begin{comment}...\end{comment}` blocks, then `\iffalse...\fi` blocks. -/
def remove_comments (s : List Char) : List Char :=
  removeIffalse (removeCommentEnv (stripLineComments s))

/-! ## Blank-Line Normalizer (`remove_excessive_blank_lines`, lines 22-32) -/

/-- A character of a blank line body in the blank-line regex: the `[ \t]`
class. -/
def isBlankChar (c : Char) : Bool :=
  c = ' ' || c = '\t'

/-- Fuelled parser for `takeBlankReps`; each repetition consumes at least
its newline. -/
def takeBlankRepsGo : Nat → List Char → Nat × List Char
  | 0, s => (0, s)
  | fuel + 1, s =>
    match s.dropWhile isBlankChar with
    | '\n' :: r =>
      ((takeBlankRepsGo fuel r).1 + 1, (takeBlankRepsGo fuel r).2)
    | _ => (0, s)

/-- Parse the maximal (greedy `{2,}` with maximal count) sequence of
repetitions of `[ \t]*\n` at the head of the text; returns the repetition
count and the remaining text. -/
def takeBlankReps (s : List Char) : Nat × List Char :=
  takeBlankRepsGo s.length s

/-- Fuelled scanner for `remove_excessive_blank_lines`. -/
def rexblGo : Nat → List Char → List Char
  | 0, s => s
  | _ + 1, [] => []
  | fuel + 1, c :: t =>
    if c = '\n' then
      if 2 ≤ (takeBlankReps t).1 then
        '\n' :: '\n' :: rexblGo fuel (takeBlankReps t).2
      else '\n' :: rexblGo fuel t
    else c :: rexblGo fuel t

/-- `remove_excessive_blank_lines` of src/main.py:
`re.sub(r'\n([ \t]*\n){2,}', '\n\n', content)` — a newline followed by two
or more whitespace-only lines (each ending in a newline) is replaced by
exactly two newlines; scanning continues after each match. -/
def remove_excessive_blank_lines (s : List Char) : List Char :=
  rexblGo s.length s

/-! ## Path model

Absolute filesystem paths are modelled as lists of components, each a
`List Char`.  `os.path.join(base, f)` followed by `os.path.abspath`
becomes `resolveComponents`: split `f` on slashes and fold the components
onto the absolute base, dropping empty and `.` components and letting
`..` pop one component, as path normalization does. -/

/-- A filesystem path as a list of name components (absolute, normalized). -/
abbrev FsPath := List (List Char)

/-- Split a filename on `/` into components. -/
def splitSlash : List Char → List (List Char)
  | [] => [[]]
  | c :: t =>
    if c = '/' then [] :: splitSlash t
    else
      match splitSlash t with
      | [] => [[c]]
      | comp :: rest => (c :: comp) :: rest

/-- `os.path.abspath(os.path.join(base, f))` for an absolute base directory. -/
def resolveComponents (base : FsPath) (f : List Char) : FsPath :=
  (splitSlash f).foldl
    (fun acc comp =>
      if comp = [] then acc
      else if comp = ['.'] then acc
      else if comp = ['.', '.'] then acc.dropLast
      else acc ++ [comp])
    base

/-- The part of a filename after the last `/` (`os.path.basename`). -/
def basenamePart (f : List Char) : List Char :=
  (f.reverse.takeWhile (fun c => !(c = '/'))).reverse

/-- Whether `os.path.splitext` yields a non-empty extension: the basename
has a `.` after its (ignored) leading dots. -/
def splitextHasExt (f : List Char) : Bool :=
  ((basenamePart f).dropWhile (fun c => c = '.')).contains '.'

/-! ## Directive Expander (`expand_input_commands`, src/main.py lines 96-150) -/

/-- The `(?:input|include)` alternation of the directive regex: Python
tries `input` first, then `include`.  Returns the text after the keyword. -/
def dirKeyword (t : List Char) : Option (List Char) :=
  match expectKw ("input".toList) t with
  | some r => some r
  | none => expectKw ("include".toList) t

/-- Try to match, at the head of `t` (the text just after a backslash),
the tail of the directive pattern `(?:input|include)\s*\{\s*([^}]+)\s*\}`.
The `[^}]+` group is greedy and must be non-empty; since the raw group is
stripped afterwards, the inner `\s*` padding is folded into the group.
Returns the raw brace body and the text after the match. -/
def matchDirRest (t : List Char) : Option (List Char × List Char) := do
  let t1 ← dirKeyword t
  let t2 ← expectChar '\x7b' (t1.dropWhile isPySpace)
  let body := t2.takeWhile (fun c => !(c = '\x7d'))
  let r ← expectChar '\x7d' (t2.dropWhile (fun c => !(c = '\x7d')))
  if body = [] then none else some (body, r)

/-- Find the leftmost match of the inclusion-directive regex
`\\(?:input|include)\s*\{\s*([^}]+)\s*\}` in the text: returns the text
before the match, the raw brace body, and the text after the match. -/
def findDirective : List Char → Option (List Char × List Char × List Char)
  | [] => none
  | c :: t =>
    if c = '\\' then
      match matchDirRest t with
      | some (body, r) => some ([], body, r)
      | none => (findDirective t).map (fun q => (c :: q.1, q.2.1, q.2.2))
    else (findDirective t).map (fun q => (c :: q.1, q.2.1, q.2.2))

/-- `expand_input_commands` of src/main.py, with the filesystem passed
explicitly (`fs` maps an absolute path to the file's content if it exists)
and a fuel bound standing in for Python's unbounded recursion: `none`
means the fuel was exhausted, so each `some` result is the value that the
unbounded recursion computes.  For each directive match in order: strip
the group, append `.tex` when `os.path.splitext` finds no extension,
resolve against the base directory, and on a hit recursively process the
comment-stripped content with the included file's own directory as the
new base; on a miss record a warning (modelled by the offending absolute
path) and substitute nothing.  Non-matched text is preserved verbatim. -/
def expand_input_commands :
    Nat → (FsPath → Option (List Char)) → List Char → FsPath →
    Option (List Char × List FsPath)
  | 0, _, _, _ => none
  | fuel + 1, fs, content, baseDir =>
    match findDirective content with
    | none => some (content, [])
    | some (pre, body, rest) =>
      let fname0 := pyStrip body
      let fname := if splitextHasExt fname0 then fname0 else fname0 ++ ".tex".toList
      let fpath := resolveComponents baseDir fname
      match fs fpath with
      | none =>
        match expand_input_commands fuel fs rest baseDir with
        | none => none
        | some (r, ws) => some (pre ++ r, fpath :: ws)
      | some fileContent =>
        match expand_input_commands fuel fs (remove_comments fileContent) fpath.dropLast with
        | none => none
        | some (inc, ws1) =>
          match expand_input_commands fuel fs rest baseDir with
          | none => none
          | some (r, ws2) => some (pre ++ inc ++ r, ws1 ++ ws2)

/-! ## Reference Scanner (`find_used_pdfs`, src/main.py lines 34-93) -/

/-- Case-insensitively consume the (lower-case) keyword `kw` at the head
of the text, as the literal command words do under `re.IGNORECASE`. -/
def ciPrefixDrop : List Char → List Char → Option (List Char)
  | [], t => some t
  | _ :: _, [] => none
  | k :: ks, c :: t => if c.toLower = k then ciPrefixDrop ks t else none

/-- Match `\{([^}]+)\}` at the head of the text: a brace, a non-empty
greedy run of non-brace characters, a closing brace.  Returns the group
and the text after the closing brace. -/
def matchBraceBody : List Char → Option (List Char × List Char)
  | [] => none
  | c :: t =>
    if c = '\x7b' then
      match expectChar '\x7d' (t.dropWhile (fun d => !(d = '\x7d'))) with
      | some r =>
        if t.takeWhile (fun d => !(d = '\x7d')) = [] then none
        else some (t.takeWhile (fun d => !(d = '\x7d')), r)
      | none => none
    else none

/-- The backtracking of `(?:\[.*?\])?\{([^}]+)\}` when the optional
bracket group is taken: scan (without crossing a newline, since `.` does
not match one) for a `]` whose following text matches `\{([^}]+)\}`;
the non-greedy `.*?` extends past a `]` whose continuation fails. -/
def matchAfterBracket : List Char → Option (List Char × List Char)
  | [] => none
  | c :: t =>
    if c = '\n' then none
    else if c = ']' then
      match matchBraceBody t with
      | some q => some q
      | none => matchAfterBracket t
    else matchAfterBracket t

/-- The tail of a graphics command after its keyword: either the optional
bracket group is taken (head is `[`), or the brace group must follow
directly. -/
def matchGraphicsTail (useBracket : Bool) (t : List Char) :
    Option (List Char × List Char) :=
  match t with
  | [] => none
  | c :: t2 =>
    if useBracket ∧ c = '[' then matchAfterBracket t2
    else matchBraceBody t

/-- Fuelled scanner for `scanCmdMatches`; every recursive call strictly
shortens the text. -/
def scanCmdGo (kw : List Char) (useBracket : Bool) : Nat → List Char → List (List Char)
  | 0, _ => []
  | _ + 1, [] => []
  | fuel + 1, c :: t =>
    if c = '\\' then
      match ciPrefixDrop kw t with
      | some t1 =>
        match matchGraphicsTail useBracket t1 with
        | some q => q.1 :: scanCmdGo kw useBracket fuel q.2
        | none => scanCmdGo kw useBracket fuel t
      | none => scanCmdGo kw useBracket fuel t
    else scanCmdGo kw useBracket fuel t

/-- All groups of one graphics-command pattern
(`\\kw(?:\[.*?\])?\{([^}]+)\}` with `re.IGNORECASE`), in match order,
with non-overlapping matches as in `re.finditer`. -/
def scanCmdMatches (kw : List Char) (useBracket : Bool) (s : List Char) :
    List (List Char) :=
  scanCmdGo kw useBracket s.length s

/-- The character class `[a-zA-Z0-9_\-]` of the caption heuristic. -/
def isClassChar (c : Char) : Bool :=
  ('a' ≤ c && c ≤ 'z') || ('A' ≤ c && c ≤ 'Z') || ('0' ≤ c && c ≤ '9') ||
    c = '_' || c = '-'

/-- Try the caption group `([a-zA-Z0-9_\-]+\.pdf)` (case-insensitive
suffix) at the head of the text: a maximal non-empty class run followed
by `.pdf`.  Returns the group (in original case) and the text after it. -/
def tryGroupAt (s : List Char) : Option (List Char × List Char) :=
  if (s.takeWhile isClassChar) = [] then none
  else
    match s.drop (s.takeWhile isClassChar).length with
    | '.' :: p :: d :: f :: rest =>
      if p.toLower = 'p' ∧ d.toLower = 'd' ∧ f.toLower = 'f' then
        some (s.takeWhile isClassChar ++ '.' :: p :: d :: f :: [], rest)
      else none
    | _ => none

/-- The `.*?\}` tail of the caption pattern: the first `}` at or after
the current position, with no newline before it. -/
def scanToBrace : List Char → Option (List Char)
  | [] => none
  | c :: t =>
    if c = '\x7d' then some t
    else if c = '\n' then none
    else scanToBrace t

/-- Inside a caption body: find the earliest group position (the
non-greedy `.*?` before the group, which cannot cross a newline) whose
trailing `.*?\}` also succeeds; on failure at one position, advance one
character. -/
def capScanGroup : List Char → Option (List Char × List Char)
  | [] => none
  | c :: t =>
    if c = '\n' then none
    else
      match tryGroupAt (c :: t) with
      | some q =>
        match scanToBrace q.2 with
        | some rest => some (q.1, rest)
        | none => capScanGroup t
      | none => capScanGroup t

/-- Fuelled scanner for `scanCaptionMatches`; every recursive call
strictly shortens the text. -/
def scanCaptionGo : Nat → List Char → List (List Char)
  | 0, _ => []
  | _ + 1, [] => []
  | fuel + 1, c :: t =>
    if c = '\\' then
      match ciPrefixDrop ("caption".toList) t with
      | some t1 =>
        match expectChar '\x7b' t1 with
        | some t2 =>
          match capScanGroup t2 with
          | some q => q.1 :: scanCaptionGo fuel q.2
          | none => scanCaptionGo fuel t
        | none => scanCaptionGo fuel t
      | none => scanCaptionGo fuel t
    else scanCaptionGo fuel t

/-- All groups of the caption heuristic pattern
`\\caption\{.*?([a-zA-Z0-9_\-]+\.pdf).*?\}` (case-insensitive), in match
order with non-overlapping matches. -/
def scanCaptionMatches (s : List Char) : List (List Char) :=
  scanCaptionGo s.length s

/-- `filename.lower().endswith('.pdf')`. -/
def lowerEndsWithPdf (f : List Char) : Bool :=
  (".pdf".toList).isSuffixOf (f.map Char.toLower)

/-- The fixed list of conventional asset directories probed by
`find_used_pdfs`. -/
def pdfDirs : List (List Char) :=
  [".".toList, "figures".toList, "images".toList, "img".toList, "graphics".toList]

/-- Model of Python's `set.add`: append if not already present. -/
def addPdfSet (acc : List FsPath) (p : FsPath) : List FsPath :=
  if p ∈ acc then acc else acc ++ [p]

/-- Probe `os.path.join(directory, filename)` for each conventional
directory in order; the first existing one is added to the set. -/
def tryPdfDirs (existsF : FsPath → Bool) (cwd : FsPath) (filename : List Char)
    (acc : List FsPath) : List (List Char) → List FsPath
  | [] => acc
  | d :: ds =>
    if existsF (resolveComponents cwd (d ++ '/' :: filename)) then
      addPdfSet acc (resolveComponents cwd (d ++ '/' :: filename))
    else tryPdfDirs existsF cwd filename acc ds

/-- Per-match processing of `find_used_pdfs`: strip the group; when the
name does not end in `.pdf` (case-insensitively), append `.pdf` only when
it has no extension at all; then, only for names now ending in `.pdf`,
resolve the literal path against the working directory and fall back to
the conventional directories. -/
def processPdfName (existsF : FsPath → Bool) (cwd : FsPath) (acc : List FsPath)
    (raw : List Char) : List FsPath :=
  let fn0 := pyStrip raw
  let fn :=
    if lowerEndsWithPdf fn0 then fn0
    else if splitextHasExt fn0 then fn0
    else fn0 ++ ".pdf".toList
  if lowerEndsWithPdf fn then
    if existsF (resolveComponents cwd fn) then
      addPdfSet acc (resolveComponents cwd fn)
    else tryPdfDirs existsF cwd fn acc pdfDirs
  else acc

/-- `find_used_pdfs` of src/main.py: scan the four patterns in order,
process every match, and collect the set of absolute paths of referenced
PDF files that exist (`existsF`), resolving relative names against the
working directory `cwd`. -/
def find_used_pdfs (existsF : FsPath → Bool) (cwd : FsPath) (content : List Char) :
    List FsPath :=
  (scanCmdMatches ("includegraphics".toList) true content
      ++ scanCmdMatches ("includepdf".toList) true content
      ++ scanCmdMatches ("pdfximage".toList) false content
      ++ scanCaptionMatches content).foldl (processPdfName existsF cwd) []

/-! ## Deletion pass (`find_all_pdfs_in_project` lines 153-160,
`delete_unused_files` lines 162-212) and orchestrator (`main`,
lines 215-295).

The ambient filesystem is passed explicitly: `allFiles` is the list of
files that exist, as absolute paths; `removeOk` tells whether an
`os.remove` call on a path succeeds (per-file failures are caught and
reported, the loop goes on). -/

/-- Whether a path names a `.pdf` file (the glob pattern `**/*.pdf` is
case-sensitive). -/
def pdfSuffix (p : FsPath) : Bool :=
  match p.getLast? with
  | some n => (".pdf".toList).isSuffixOf n
  | none => false

/-- Whether a path names a `.tex` file (the glob pattern `**/*.tex`). -/
def texSuffix (p : FsPath) : Bool :=
  match p.getLast? with
  | some n => (".tex".toList).isSuffixOf n
  | none => false

/-- `find_all_pdfs_in_project` of src/main.py: all `.pdf` files
discoverable recursively from the working directory. -/
def find_all_pdfs_in_project (allFiles : List FsPath) (cwd : FsPath) : List FsPath :=
  allFiles.filter (fun p => cwd.isPrefixOf p && pdfSuffix p)

/-- Result of the deletion pass: which files each branch deleted and
which deletion attempts failed (error printed, loop continued). -/
structure DeleteOutcome where
  texDeleted : List FsPath
  texFailed : List FsPath
  pdfDeleted : List FsPath
  pdfFailed : List FsPath
deriving DecidableEq, Repr

/-- `delete_unused_files` of src/main.py.  With `delete_tex`: every
`.tex` file under the output file's directory except the output file
itself is attempted.  With `delete_unused_pdf`: the set difference of all
project PDFs minus `used_pdfs` is attempted.  A failing `os.remove` is
reported and skipped, and the loop continues. -/
def delete_unused_files (allFiles : List FsPath) (cwd : FsPath)
    (outputAbs : FsPath) (usedPdfs : List FsPath)
    (delete_tex delete_unused_pdf : Bool) (removeOk : FsPath → Bool) :
    DeleteOutcome :=
  let texCandidates :=
    if delete_tex then
      allFiles.filter
        (fun p => (outputAbs.dropLast).isPrefixOf p && texSuffix p && !(p = outputAbs))
    else []
  let pdfCandidates :=
    if delete_unused_pdf then
      (find_all_pdfs_in_project allFiles cwd).filter
        (fun p => decide (p ∉ usedPdfs))
    else []
  { texDeleted := texCandidates.filter removeOk
    texFailed := texCandidates.filter (fun p => !(removeOk p))
    pdfDeleted := pdfCandidates.filter removeOk
    pdfFailed := pdfCandidates.filter (fun p => !(removeOk p)) }

/-- The fatal errors `main` prints before exiting with code 1. -/
inductive MainError
  | inputNotFound
  | inputEqualsOutput
deriving DecidableEq, Repr

/-- The observable outcome of a `main` run: process exit code, the output
file written (path and content), the deletion pass results, and fatal
errors reported. -/
structure MainOutcome where
  exitCode : Nat
  written : Option (FsPath × List Char)
  delete : DeleteOutcome
  errors : List MainError
deriving DecidableEq, Repr

/-- An empty deletion outcome: nothing deleted, nothing attempted. -/
def emptyDelete : DeleteOutcome :=
  { texDeleted := [], texFailed := [], pdfDeleted := [], pdfFailed := [] }

/-- `main` of src/main.py with the process environment passed explicitly:
check that the input exists, then that input and output resolve to
different absolute paths (each failure reports an error and exits with
code 1 before anything is written, processed or deleted); then strip
comments, expand directives (fuelled, as `expand_input_commands`),
normalize blank lines, scan for used PDFs, write the output, and run the
deletion pass. -/
def mainModel (fuel : Nat) (inputExists : Bool) (inputAbs outputAbs : FsPath)
    (inputContent : List Char) (fs : FsPath → Option (List Char))
    (allFiles : List FsPath) (existsF : FsPath → Bool) (cwd : FsPath)
    (removeOk : FsPath → Bool) (delete_tex delete_unused_pdf : Bool) :
    Option MainOutcome :=
  if !inputExists then
    some ⟨1, none, emptyDelete, [MainError.inputNotFound]⟩
  else if inputAbs = outputAbs then
    some ⟨1, none, emptyDelete, [MainError.inputEqualsOutput]⟩
  else
    match expand_input_commands fuel fs (remove_comments inputContent) inputAbs.dropLast with
    | none => none
    | some q =>
      some ⟨0, some (outputAbs, remove_excessive_blank_lines q.1),
        delete_unused_files allFiles cwd outputAbs
          (find_used_pdfs existsF cwd (remove_excessive_blank_lines q.1))
          delete_tex delete_unused_pdf removeOk,
        []⟩

/-! ## Fixtures: concrete filesystems for the concrete claims -/

/-- The concrete working directory used by the concrete instances. -/
def cwd0 : FsPath := ["proj".toList]

/-- Nested single-directory include tree: `a.tex` includes `b`, `b.tex`
holds the literal text `X`. -/
def fsNested : FsPath → Option (List Char) := fun p =>
  if p = ["proj".toList, "a.tex".toList] then some ("\\input\x7bb\x7d".toList)
  else if p = ["proj".toList, "b.tex".toList] then some ("X".toList)
  else none

/-- Include tree with a subdirectory: `sub/a.tex` includes `b`, which
must resolve against `sub/` (the included file's own directory) to `Y`,
not against the root (where a decoy `b.tex` holds `WRONG`). -/
def fsNestedSub : FsPath → Option (List Char) := fun p =>
  if p = ["proj".toList, "sub".toList, "a.tex".toList] then
    some ("\\input\x7bb\x7d".toList)
  else if p = ["proj".toList, "sub".toList, "b.tex".toList] then
    some ("Y".toList)
  else if p = ["proj".toList, "b.tex".toList] then
    some ("WRONG".toList)
  else none

/-- Existence oracle: only `proj/figures/plot.pdf` exists. -/
def existsFiguresPlot : FsPath → Bool := fun p =>
  p = ["proj".toList, "figures".toList, "plot.pdf".toList]

/-- Existence oracle: both `proj/plot.pdf` and `proj/figures/plot.pdf`
exist. -/
def existsBothPlot : FsPath → Bool := fun p =>
  p = ["proj".toList, "plot.pdf".toList] ||
    p = ["proj".toList, "figures".toList, "plot.pdf".toList]

/-- Existence oracle: `proj/a.pdf` and `proj/b.pdf` exist. -/
def existsAB : FsPath → Bool := fun p =>
  p = ["proj".toList, "a.pdf".toList] || p = ["proj".toList, "b.pdf".toList]

/-- Project listing: a root `.tex` file and three PDFs. -/
def pdfABC : List FsPath :=
  [["proj".toList, "root.tex".toList],
   ["proj".toList, "a.pdf".toList],
   ["proj".toList, "b.pdf".toList],
   ["proj".toList, "c.pdf".toList]]

/-- The output file of the concrete deletion scenario. -/
def outRoot : FsPath := ["proj".toList, "combined.tex".toList]

/-- A remover whose `os.remove` fails exactly on `proj/b.pdf`. -/
def removeFailsB : FsPath → Bool := fun p =>
  !(p = ["proj".toList, "b.pdf".toList])

/-- A caption whose braces contain two `.pdf`-suffixed tokens. -/
def capTwoTokens (t1 t2 : List Char) : List Char :=
  "\\caption\x7b".toList ++ (t1 ++ (".pdf ".toList ++ (t2 ++ ".pdf\x7d".toList)))

/-- Existence oracle: exactly the two PDFs named by the caption tokens
exist in the working directory. -/
def existsTwoTokens (t1 t2 : List Char) : FsPath → Bool := fun p =>
  p = cwd0 ++ [t1 ++ ".pdf".toList] || p = cwd0 ++ [t2 ++ ".pdf".toList]

/-! ## Predicates about texts, mirroring the scanners -/

/-- Every `%` in the text is escaped, i.e. immediately preceded by a
backslash; `prev` is the character before the text's first character.
Exactly the texts in which the line-comment regex has no match. -/
def noUnescPct : Option Char → List Char → Bool
  | _, [] => true
  | prev, c :: t =>
    if c = '%' then decide (prev = some '\\') && noUnescPct (some '%') t
    else noUnescPct (some c) t

/-- The text contains a `\begin{comment}` token (a backslash followed by
what `matchTokAux` accepts). -/
def hasBeginTok : List Char → Bool
  | [] => false
  | c :: t =>
    (decide (c = '\\') && (matchTokAux ("begin".toList) t).isSome) || hasBeginTok t

/-- The text contains the literal `\iffalse`. -/
def hasIffalseTok : List Char → Bool
  | [] => false
  | c :: t =>
    (decide (c = '\\') && ("iffalse".toList).isPrefixOf t) || hasIffalseTok t

/-- The last character of `u`, or `prev` when `u` is empty: the character
the line-comment lookbehind inspects for a `%` placed right after `u`. -/
def lastOpt (prev : Option Char) (u : List Char) : Option Char :=
  match u.getLast? with
  | some c => some c
  | none => prev

/-- Whether `pat` occurs as a contiguous subsequence of the text. -/
def hasSubstring (pat : List Char) : List Char → Bool
  | [] => pat.isEmpty
  | c :: t => pat.isPrefixOf (c :: t) || hasSubstring pat t

end LatexMerge

namespace LatexMerge

/-! ## Helper lemmas -/

theorem lastOpt_cons (prev : Option Char) (c : Char) (u : List Char) :
    lastOpt prev (c :: u) = lastOpt (some c) u := by
  cases u with
  | nil => rfl
  | cons d u' =>
    simp only [lastOpt, List.getLast?_cons_cons]
    cases hq : (d :: u').getLast? with
    | some x => rfl
    | none =>
      exfalso
      have : (d : Char) :: u' = [] := List.getLast?_eq_none_iff.mp hq
      cases this

/-- When every `%` is escaped, the line-comment pass removes nothing. -/
theorem stripLineGo_id_of_noUnesc :
    ∀ (s : List Char) (prev : Option Char),
      noUnescPct prev s = true → stripLineGo prev false s = s := by
  intro s
  induction s with
  | nil => intro prev _; rfl
  | cons c t ih =>
    intro prev h
    simp only [noUnescPct] at h
    by_cases hc : c = '%'
    · rw [if_pos hc] at h
      simp only [Bool.and_eq_true, decide_eq_true_eq] at h
      obtain ⟨hprev, ht⟩ := h
      subst hc
      subst hprev
      simp [stripLineGo, ih (some '%') ht]
    · rw [if_neg hc] at h
      simp only [stripLineGo, if_neg hc]
      rw [ih (some c) h]

/-- Without a `\begin{comment}` token no block-comment match exists, so
the pass is the identity (at any fuel). -/
theorem removeCommentEnvGo_id :
    ∀ (fuel : Nat) (s : List Char), hasBeginTok s = false →
      removeCommentEnvGo fuel s = s := by
  intro fuel
  induction fuel with
  | zero => intro s _; rfl
  | succ fuel ih =>
    intro s h
    cases s with
    | nil => rfl
    | cons c t =>
      simp only [hasBeginTok] at h
      have h2 : hasBeginTok t = false := by
        cases hts : hasBeginTok t
        · rfl
        · rw [hts] at h; simp at h
      by_cases hc : c = '\\'
      · cases hM : matchTokAux ("begin".toList) t with
        | some r => exfalso; rw [hc, hM] at h; simp at h
        | none =>
          simp only [removeCommentEnvGo, if_pos hc, hM]
          rw [ih t h2]
      · simp only [removeCommentEnvGo, if_neg hc]
        rw [ih t h2]

/-- Without an `\iffalse` no conditional-false match exists, so the pass
is the identity (at any fuel). -/
theorem removeIffalseGo_id :
    ∀ (fuel : Nat) (s : List Char), hasIffalseTok s = false →
      removeIffalseGo fuel s = s := by
  intro fuel
  induction fuel with
  | zero => intro s _; rfl
  | succ fuel ih =>
    intro s h
    cases s with
    | nil => rfl
    | cons c t =>
      simp only [hasIffalseTok] at h
      have h2 : hasIffalseTok t = false := by
        cases hts : hasIffalseTok t
        · rfl
        · rw [hts] at h; simp at h
      by_cases hc : c = '\\'
      · have hpre : ("iffalse".toList).isPrefixOf t = false := by
          cases hp : ("iffalse".toList).isPrefixOf t
          · rfl
          · exfalso; rw [hc, hp] at h; simp at h
        simp only [removeIffalseGo, if_pos hc, hpre]
        simp [ih t h2]
      · simp only [removeIffalseGo, if_neg hc]
        rw [ih t h2]

/-- A text with no unescaped `%`, no `\begin{comment}` token and no
`\iffalse` is a fixed point of `remove_comments`. -/
theorem remove_comments_id_of_clean (s : List Char)
    (h1 : noUnescPct none s = true) (h2 : hasBeginTok s = false)
    (h3 : hasIffalseTok s = false) : remove_comments s = s := by
  unfold remove_comments stripLineComments removeCommentEnv removeIffalse
  rw [stripLineGo_id_of_noUnesc s none h1, removeCommentEnvGo_id s.length s h2,
    removeIffalseGo_id s.length s h3]

/-- While discarding a comment, everything up to the next newline is
dropped; the newline itself is kept and scanning resumes after it. -/
theorem stripLineGo_drop :
    ∀ (v : List Char) (w : List Char) (prev : Option Char), '\n' ∉ v →
      stripLineGo prev true (v ++ ('\n' :: w)) =
        '\n' :: stripLineGo (some '\n') false w := by
  intro v
  induction v with
  | nil => intro w prev _; simp [stripLineGo]
  | cons d v' ih =>
    intro w prev hv
    have hd : ¬ d = '\n' := fun h => hv (by rw [h]; exact List.mem_cons_self _ _)
    have hv' : '\n' ∉ v' := fun hm => hv (List.mem_cons_of_mem _ hm)
    simp only [List.cons_append, stripLineGo, if_neg hd]
    exact ih w prev hv'

/-- A `%` not immediately preceded by a backslash, and not preceded by any
unescaped `%` on its line, starts a removal that eats everything up to but
not including the next newline; scanning then resumes after the newline. -/
theorem stripLineGo_comment :
    ∀ (u : List Char) (prev : Option Char) (v w : List Char),
      noUnescPct prev u = true → lastOpt prev u ≠ some '\\' → '\n' ∉ v →
      stripLineGo prev false (u ++ ('%' :: (v ++ ('\n' :: w)))) =
        u ++ ('\n' :: stripLineGo (some '\n') false w) := by
  intro u
  induction u with
  | nil =>
    intro prev v w _ hlast hv
    have hprev : ¬ prev = some '\\' := hlast
    simp only [List.nil_append, stripLineGo, if_pos rfl, if_neg hprev]
    exact stripLineGo_drop v w prev hv
  | cons c u' ih =>
    intro prev v w hu hlast hv
    rw [lastOpt_cons] at hlast
    simp only [noUnescPct] at hu
    by_cases hc : c = '%'
    · rw [if_pos hc] at hu
      simp only [Bool.and_eq_true, decide_eq_true_eq] at hu
      obtain ⟨hprev, hu'⟩ := hu
      subst hc
      subst hprev
      simp only [List.cons_append, stripLineGo]
      simp [ih (some '%') v w hu' hlast hv]
    · rw [if_neg hc] at hu
      simp only [List.cons_append, List.append_eq, stripLineGo, if_neg hc]
      rw [ih (some c) v w hu hlast hv]

/-- While discarding a comment, the recorded previous character is
irrelevant: the lookbehind is only consulted at a `%`, never inside a
match. -/
theorem stripLineGo_dropping_prev :
    ∀ (s : List Char) (p1 p2 : Option Char),
      stripLineGo p1 true s = stripLineGo p2 true s := by
  intro s
  induction s with
  | nil => intro p1 p2; rfl
  | cons c t ih =>
    intro p1 p2
    by_cases hc : c = '\n'
    · subst hc; simp [stripLineGo]
    · simp only [stripLineGo, if_neg hc]
      exact ih p1 p2

/-! ## Lemmas for the Blank-Line Normalizer -/

theorem takeBlankRepsGo_run (m : Nat) (c : Char) (l : List Char)
    (hc1 : isBlankChar c = false) (hc2 : ¬ c = '\n') :
    ∀ fuel, m ≤ fuel →
      takeBlankRepsGo fuel (List.replicate m '\n' ++ c :: l) = (m, c :: l) := by
  induction m with
  | zero =>
    intro fuel _
    cases fuel with
    | zero => simp [takeBlankRepsGo]
    | succ f =>
      simp only [List.replicate_zero, List.nil_append, takeBlankRepsGo,
        List.dropWhile_cons, hc1]
      simp [hc2]
  | succ m ih =>
    intro fuel hf
    cases fuel with
    | zero => omega
    | succ f =>
      have hrep : List.replicate (m + 1) '\n' ++ c :: l =
          '\n' :: (List.replicate m '\n' ++ c :: l) := by
        simp [List.replicate_succ]
      rw [hrep]
      have hdw : List.dropWhile isBlankChar
          ('\n' :: (List.replicate m '\n' ++ c :: l)) =
            '\n' :: (List.replicate m '\n' ++ c :: l) := by
        rw [List.dropWhile_cons, if_neg (by decide : ¬ isBlankChar '\n' = true)]
      simp only [takeBlankRepsGo, hdw]
      rw [ih f (by omega)]

theorem takeBlankReps_run (m : Nat) (c : Char) (l : List Char)
    (hc1 : isBlankChar c = false) (hc2 : ¬ c = '\n') :
    takeBlankReps (List.replicate m '\n' ++ c :: l) = (m, c :: l) := by
  unfold takeBlankReps
  apply takeBlankRepsGo_run m c l hc1 hc2
  simp

theorem rexblGo_nil (fuel : Nat) : rexblGo fuel [] = [] := by
  cases fuel <;> rfl

theorem rexblGo_single (fuel : Nat) (c : Char) (hc : ¬ c = '\n') (hf : 1 ≤ fuel) :
    rexblGo fuel [c] = [c] := by
  cases fuel with
  | zero => omega
  | succ f => simp [rexblGo, hc, rexblGo_nil]

/-- A newline followed by `d + 2` further newlines and a non-blank rest
collapses to exactly two newlines. -/
theorem rexblGo_collapse (d f : Nat) (hf : d + 3 ≤ f) :
    rexblGo f ('\n' :: (List.replicate (d + 2) '\n' ++ ['b'])) =
      ['\n', '\n', 'b'] := by
  cases f with
  | zero => omega
  | succ f2 =>
    simp only [rexblGo, if_pos rfl]
    rw [takeBlankReps_run (d + 2) 'b' [] (by decide) (by decide)]
    rw [if_pos (by omega : 2 ≤ d + 2)]
    rw [rexblGo_single f2 'b' (by decide) (by omega)]
    simp

/-! ## Lemmas for the Directive Expander -/

/-- A text without a backslash has no directive match. -/
theorem findDirective_none_of_no_backslash :
    ∀ (s : List Char), '\\' ∉ s → findDirective s = none := by
  intro s
  induction s with
  | nil => intro _; rfl
  | cons c t ih =>
    intro h
    have hc : ¬ c = '\\' := fun hh => h (by rw [hh]; exact List.mem_cons_self _ _)
    have ht : '\\' ∉ t := fun hm => h (List.mem_cons_of_mem _ hm)
    simp [findDirective, if_neg hc, ih ht]

/-- The leftmost directive match in `a ++ "\input{missing}" ++ b` for
backslash-free `a` is the explicit one: prefix `a`, group `missing`,
rest `b`. -/
theorem findDirective_pre :
    ∀ (a b : List Char), '\\' ∉ a →
      findDirective (a ++ ("\\input\x7bmissing\x7d".toList ++ b)) =
        some (a, "missing".toList, b) := by
  intro a
  induction a with
  | nil => intro b _; rfl
  | cons c a' ih =>
    intro b h
    have hc : ¬ c = '\\' := fun hh => h (by rw [hh]; exact List.mem_cons_self _ _)
    have ha' : '\\' ∉ a' := fun hm => h (List.mem_cons_of_mem _ hm)
    simp only [List.cons_append, List.append_eq, findDirective, if_neg hc]
    rw [ih b ha']
    rfl

/-- `\includegraphics{...}` is not an inclusion directive: after the
alternation consumes `include`, the regex requires `\s*\{` but finds
`g`, and no other match can start inside a backslash-free argument. -/
theorem findDirective_ig_none (b : List Char) (hb : '\\' ∉ b) :
    findDirective ("\\includegraphics\x7b".toList ++ (b ++ ['\x7d'])) = none := by
  have ht : '\\' ∉ ("includegraphics\x7b".toList ++ (b ++ ['\x7d'])) := by
    intro hm
    rcases List.mem_append.mp hm with h1 | h1
    · exact absurd h1 (by decide)
    · rcases List.mem_append.mp h1 with h2 | h2
      · exact hb h2
      · exact absurd h2 (by decide)
  have h1 : matchDirRest ("includegraphics\x7b".toList ++ (b ++ ['\x7d'])) =
      none := rfl
  have h2 := findDirective_none_of_no_backslash _ ht
  show findDirective
    ('\\' :: ("includegraphics\x7b".toList ++ (b ++ ['\x7d']))) = none
  rw [findDirective, if_pos rfl, h1, h2]
  rfl

/-- `\includepdf{...}` is likewise not an inclusion directive. -/
theorem findDirective_ipdf_none (b : List Char) (hb : '\\' ∉ b) :
    findDirective ("\\includepdf\x7b".toList ++ (b ++ ['\x7d'])) = none := by
  have ht : '\\' ∉ ("includepdf\x7b".toList ++ (b ++ ['\x7d'])) := by
    intro hm
    rcases List.mem_append.mp hm with h1 | h1
    · exact absurd h1 (by decide)
    · rcases List.mem_append.mp h1 with h2 | h2
      · exact hb h2
      · exact absurd h2 (by decide)
  have h1 : matchDirRest ("includepdf\x7b".toList ++ (b ++ ['\x7d'])) =
      none := rfl
  have h2 := findDirective_none_of_no_backslash _ ht
  show findDirective
    ('\\' :: ("includepdf\x7b".toList ++ (b ++ ['\x7d']))) = none
  rw [findDirective, if_pos rfl, h1, h2]
  rfl

/-- A text with no directive match expands to itself with no warnings. -/
theorem expand_no_directive (fuel : Nat) (fs : FsPath → Option (List Char))
    (s : List Char) (dir : FsPath) (h : findDirective s = none) :
    expand_input_commands (fuel + 1) fs s dir = some (s, []) := by
  rw [expand_input_commands, h]

/-! ## Lemmas for the Reference Scanner -/

/-- A caption-class character is none of the scanner's special
characters, and is not whitespace. -/
theorem classChar_facts {c : Char} (h : isClassChar c = true) :
    c ≠ '\\' ∧ c ≠ '\n' ∧ c ≠ '\x7d' ∧ c ≠ '.' ∧ c ≠ '/' ∧ isPySpace c = false := by
  refine ⟨?_, ?_, ?_, ?_, ?_, ?_⟩
  · intro he; rw [he] at h; exact absurd h (by decide)
  · intro he; rw [he] at h; exact absurd h (by decide)
  · intro he; rw [he] at h; exact absurd h (by decide)
  · intro he; rw [he] at h; exact absurd h (by decide)
  · intro he; rw [he] at h; exact absurd h (by decide)
  · cases hps : isPySpace c
    · rfl
    · exfalso
      have hd : ((((c = ' ' ∨ c = '\t') ∨ c = '\n') ∨ c = '\r') ∨ c = '\x0b') ∨
          c = '\x0c' := by
        simpa [isPySpace] using hps
      rcases hd with ((((rfl | rfl) | rfl) | rfl) | rfl) | rfl <;> exact absurd h (by decide)

/-- A backslash-free text yields no graphics-command matches. -/
theorem scanCmdGo_no_bs (kw : List Char) (u : Bool) :
    ∀ (fuel : Nat) (s : List Char), '\\' ∉ s → scanCmdGo kw u fuel s = [] := by
  intro fuel
  induction fuel with
  | zero => intro s _; rfl
  | succ fuel ih =>
    intro s h
    cases s with
    | nil => rfl
    | cons c t =>
      have hc : ¬ c = '\\' := fun hh => h (by rw [hh]; exact List.mem_cons_self _ _)
      have ht : '\\' ∉ t := fun hm => h (List.mem_cons_of_mem _ hm)
      simp [scanCmdGo, if_neg hc, ih t ht]

theorem scanCaptionGo_nil (fuel : Nat) : scanCaptionGo fuel [] = [] := by
  cases fuel <;> rfl

/-- `takeWhile isClassChar` stops exactly at the `.` after a class run. -/
theorem takeWhile_class (l r : List Char) (hl : ∀ c ∈ l, isClassChar c = true) :
    List.takeWhile isClassChar (l ++ ('.' :: r)) = l := by
  induction l with
  | nil =>
    rw [List.nil_append, List.takeWhile_cons,
      if_neg (by decide : ¬ isClassChar '.' = true)]
  | cons c l' ih =>
    have hc := hl c (List.mem_cons_self _ _)
    rw [List.cons_append, List.takeWhile_cons, if_pos hc,
      ih (fun d hd => hl d (List.mem_cons_of_mem _ hd))]

/-- The caption group matcher at the start of a class token followed by
`.pdf`. -/
theorem tryGroupAt_token (t1 rest : List Char) (h1 : t1 ≠ [])
    (hc1 : ∀ c ∈ t1, isClassChar c = true) :
    tryGroupAt (t1 ++ ('.' :: 'p' :: 'd' :: 'f' :: rest)) =
      some (t1 ++ ".pdf".toList, rest) := by
  unfold tryGroupAt
  rw [takeWhile_class t1 _ hc1]
  rw [if_neg h1]
  rw [List.drop_left]
  simp

/-- `scanToBrace` runs through brace-free, newline-free text to the first
closing brace. -/
theorem scanToBrace_append (xs r : List Char)
    (hx : ∀ c ∈ xs, ¬ c = '\x7d' ∧ ¬ c = '\n') :
    scanToBrace (xs ++ ('\x7d' :: r)) = some r := by
  induction xs with
  | nil => simp [scanToBrace]
  | cons c xs' ih =>
    obtain ⟨hb, hn⟩ := hx c (List.mem_cons_self _ _)
    rw [List.cons_append, scanToBrace, if_neg hb, if_neg hn]
    exact ih (fun d hd => hx d (List.mem_cons_of_mem _ hd))

/-- In a caption body holding `T1.pdf T2.pdf` (class tokens), the group
matcher finds `T1.pdf` — the earliest group — and its trailing `.*?\}`
swallows the rest of the body including `T2.pdf`. -/
theorem capScanGroup_token (t1 t2 : List Char) (h1 : t1 ≠ [])
    (hc1 : ∀ c ∈ t1, isClassChar c = true)
    (hc2 : ∀ c ∈ t2, isClassChar c = true) :
    capScanGroup (t1 ++ ('.' :: 'p' :: 'd' :: 'f' ::
        (' ' :: (t2 ++ ('.' :: 'p' :: 'd' :: 'f' :: ('\x7d' :: [])))))) =
      some (t1 ++ ".pdf".toList, []) := by
  obtain ⟨c, t1', rfl⟩ : ∃ c t1', t1 = c :: t1' := by
    cases t1 with
    | nil => exact absurd rfl h1
    | cons c t1' => exact ⟨c, t1', rfl⟩
  have hcc := hc1 c (List.mem_cons_self _ _)
  have hcn : ¬ c = '\n' := (classChar_facts hcc).2.1
  rw [List.cons_append, capScanGroup, if_neg hcn, ← List.cons_append,
    tryGroupAt_token (c :: t1') _ h1 hc1]
  simp only
  rw [show (' ' :: (t2 ++ ('.' :: 'p' :: 'd' :: 'f' :: ('\x7d' :: [])))) =
      ((' ' :: (t2 ++ ('.' :: 'p' :: 'd' :: 'f' :: []))) ++ ('\x7d' :: [])) by
    simp]
  rw [scanToBrace_append _ _ ?_]
  · intro d hd
    rcases List.mem_cons.mp hd with rfl | hd2
    · exact ⟨by decide, by decide⟩
    · rcases List.mem_append.mp hd2 with hd3 | hd3
      · have := classChar_facts (hc2 d hd3)
        exact ⟨this.2.2.1, this.2.1⟩
      · have hd4 : d = '.' ∨ d = 'p' ∨ d = 'd' ∨ d = 'f' := by simpa using hd3
        rcases hd4 with rfl | rfl | rfl | rfl <;> exact ⟨by decide, by decide⟩

/-- No backslash occurs after the leading one in a two-token caption. -/
theorem capTwo_no_bs (t1 t2 : List Char)
    (hc1 : ∀ c ∈ t1, isClassChar c = true)
    (hc2 : ∀ c ∈ t2, isClassChar c = true) :
    '\\' ∉ ("caption\x7b".toList ++
      (t1 ++ (".pdf ".toList ++ (t2 ++ ".pdf\x7d".toList)))) := by
  intro hm
  simp only [List.mem_append] at hm
  rcases hm with h | h | h | h | h
  · exact absurd h (by decide)
  · exact (classChar_facts (hc1 _ h)).1 rfl
  · exact absurd h (by decide)
  · exact (classChar_facts (hc2 _ h)).1 rfl
  · exact absurd h (by decide)

/-- The caption scanner on a two-token caption returns exactly the first
token (with its `.pdf`): `finditer`'s single non-overlapping match ends at
the closing brace, past the second token. -/
theorem scanCaption_capTwo (t1 t2 : List Char) (h1 : t1 ≠ [])
    (hc1 : ∀ c ∈ t1, isClassChar c = true)
    (hc2 : ∀ c ∈ t2, isClassChar c = true) :
    scanCaptionMatches (capTwoTokens t1 t2) = [t1 ++ ".pdf".toList] := by
  unfold scanCaptionMatches capTwoTokens
  rw [show ("\\caption\x7b".toList ++
      (t1 ++ (".pdf ".toList ++ (t2 ++ ".pdf\x7d".toList)))) =
    '\\' :: ("caption\x7b".toList ++
      (t1 ++ (".pdf ".toList ++ (t2 ++ ".pdf\x7d".toList)))) from rfl]
  rw [show ('\\' :: ("caption\x7b".toList ++
      (t1 ++ (".pdf ".toList ++ (t2 ++ ".pdf\x7d".toList))))).length =
    ("caption\x7b".toList ++
      (t1 ++ (".pdf ".toList ++ (t2 ++ ".pdf\x7d".toList)))).length + 1 from rfl]
  rw [scanCaptionGo, if_pos rfl]
  rw [show ciPrefixDrop ("caption".toList) ("caption\x7b".toList ++
      (t1 ++ (".pdf ".toList ++ (t2 ++ ".pdf\x7d".toList)))) =
    some ('\x7b' :: (t1 ++ (".pdf ".toList ++ (t2 ++ ".pdf\x7d".toList)))) from rfl]
  simp only
  rw [show expectChar '\x7b'
      ('\x7b' :: (t1 ++ (".pdf ".toList ++ (t2 ++ ".pdf\x7d".toList)))) =
    some (t1 ++ (".pdf ".toList ++ (t2 ++ ".pdf\x7d".toList))) from rfl]
  simp only
  rw [show (t1 ++ (".pdf ".toList ++ (t2 ++ ".pdf\x7d".toList))) =
    (t1 ++ ('.' :: 'p' :: 'd' :: 'f' ::
      (' ' :: (t2 ++ ('.' :: 'p' :: 'd' :: 'f' :: ('\x7d' :: [])))))) from rfl]
  rw [capScanGroup_token t1 t2 h1 hc1 hc2]
  simp only
  rw [scanCaptionGo_nil]

/-- The three command scanners find nothing in a two-token caption. -/
theorem scanCmd_capTwo (kw : List Char) (u : Bool) (t1 t2 : List Char)
    (hkw : ciPrefixDrop kw ("caption\x7b".toList ++
      (t1 ++ (".pdf ".toList ++ (t2 ++ ".pdf\x7d".toList)))) = none)
    (hc1 : ∀ c ∈ t1, isClassChar c = true)
    (hc2 : ∀ c ∈ t2, isClassChar c = true) :
    scanCmdMatches kw u (capTwoTokens t1 t2) = [] := by
  unfold scanCmdMatches capTwoTokens
  rw [show ("\\caption\x7b".toList ++
      (t1 ++ (".pdf ".toList ++ (t2 ++ ".pdf\x7d".toList)))) =
    '\\' :: ("caption\x7b".toList ++
      (t1 ++ (".pdf ".toList ++ (t2 ++ ".pdf\x7d".toList)))) from rfl]
  rw [show ('\\' :: ("caption\x7b".toList ++
      (t1 ++ (".pdf ".toList ++ (t2 ++ ".pdf\x7d".toList))))).length =
    ("caption\x7b".toList ++
      (t1 ++ (".pdf ".toList ++ (t2 ++ ".pdf\x7d".toList)))).length + 1 from rfl]
  rw [scanCmdGo, if_pos rfl, hkw]
  exact scanCmdGo_no_bs kw u _ _ (capTwo_no_bs t1 t2 hc1 hc2)

/-- `str.strip` leaves a class token with `.pdf` suffix unchanged. -/
theorem pyStrip_token (t1 : List Char) (h1 : t1 ≠ [])
    (hc1 : ∀ c ∈ t1, isClassChar c = true) :
    pyStrip (t1 ++ ".pdf".toList) = t1 ++ ".pdf".toList := by
  obtain ⟨c, t1', rfl⟩ : ∃ c t1', t1 = c :: t1' := by
    cases t1 with
    | nil => exact absurd rfl h1
    | cons c t1' => exact ⟨c, t1', rfl⟩
  have hcs : isPySpace c = false := (classChar_facts (hc1 c (List.mem_cons_self _ _))).2.2.2.2.2
  unfold pyStrip
  rw [List.cons_append, List.dropWhile_cons, hcs]
  simp only [Bool.false_eq_true, if_false]
  have hrev : ((c :: t1') ++ ".pdf".toList).reverse =
      'f' :: ('d' :: ('p' :: ('.' :: (c :: t1').reverse))) := by
    rw [List.reverse_append]
    rfl
  rw [← List.cons_append, hrev, List.dropWhile_cons]
  rw [show isPySpace 'f' = false from rfl]
  simp only [Bool.false_eq_true, if_false]
  rw [← hrev, List.reverse_reverse]

/-- Any name with `.pdf` appended passes the lower-case `.pdf` suffix
test. -/
theorem lowerEndsWithPdf_append (x : List Char) :
    lowerEndsWithPdf (x ++ ".pdf".toList) = true := by
  unfold lowerEndsWithPdf
  rw [List.map_append]
  rw [show (".pdf".toList).map Char.toLower = ".pdf".toList from rfl]
  exact (List.isSuffixOf_iff_suffix).mpr (List.suffix_append _ _)

theorem splitSlash_no_slash (l : List Char) (h : '/' ∉ l) : splitSlash l = [l] := by
  induction l with
  | nil => rfl
  | cons c t ih =>
    have hc : ¬ c = '/' := fun hh => h (by rw [hh]; exact List.mem_cons_self _ _)
    have ht : '/' ∉ t := fun hm => h (List.mem_cons_of_mem _ hm)
    rw [splitSlash, if_neg hc, ih ht]

/-- Resolution of a single-component relative filename below an absolute
base. -/
theorem resolveComponents_single (base : FsPath) (f : List Char) (hns : '/' ∉ f)
    (hne : f ≠ []) (hd1 : f ≠ ['.']) (hd2 : f ≠ ['.', '.']) :
    resolveComponents base f = base ++ [f] := by
  unfold resolveComponents
  rw [splitSlash_no_slash f hns]
  rw [List.foldl_cons, List.foldl_nil]
  rw [if_neg hne, if_neg hd1, if_neg hd2]

/-- Processing a single class token with `.pdf` suffix that exists at its
literal path: it is added to the empty set. -/
theorem processPdfName_token (E : FsPath → Bool) (t1 : List Char) (h1 : t1 ≠ [])
    (hc1 : ∀ c ∈ t1, isClassChar c = true)
    (hE : E (cwd0 ++ [t1 ++ ".pdf".toList]) = true) :
    processPdfName E cwd0 [] (t1 ++ ".pdf".toList) =
      [cwd0 ++ [t1 ++ ".pdf".toList]] := by
  have hlen1 : 1 ≤ t1.length := by
    cases t1 with
    | nil => exact absurd rfl h1
    | cons _ _ => simp
  have hslash : '/' ∉ t1 ++ ".pdf".toList := by
    intro hm
    rcases List.mem_append.mp hm with hm1 | hm1
    · exact (classChar_facts (hc1 _ hm1)).2.2.2.2.1 rfl
    · exact absurd hm1 (by decide)
  have hne : t1 ++ ".pdf".toList ≠ [] := by simp
  have hd1 : t1 ++ ".pdf".toList ≠ ['.'] := by
    intro heq
    have := congrArg List.length heq
    simp at this
  have hd2 : t1 ++ ".pdf".toList ≠ ['.', '.'] := by
    intro heq
    have := congrArg List.length heq
    simp at this
  unfold processPdfName
  rw [pyStrip_token t1 h1 hc1]
  simp only [lowerEndsWithPdf_append t1, if_true]
  rw [resolveComponents_single cwd0 (t1 ++ ".pdf".toList) hslash hne hd1 hd2]
  rw [hE]
  simp [addPdfSet]

/-! ## Claim theorems -/

/-- C1: the Blank-Line Normalizer collapses any run of 3 or more
consecutive newlines (blank/whitespace-only lines) into exactly two
consecutive newlines (one blank line), leaves runs of 1 or 2 newlines
untouched, returns an input of exactly 2 consecutive newlines unchanged,
and collapses 5 consecutive newlines to exactly 2; whitespace-only lines
inside a run are collapsed the same way.  Runs are counted in newline
characters, matching the spec's own example `5 blank lines ↦ 2 newlines`. -/
theorem claim1_blank_line_normalizer :
    (∀ k, 3 ≤ k →
      remove_excessive_blank_lines ('a' :: (List.replicate k '\n' ++ ['b'])) =
        ['a', '\n', '\n', 'b'])
    ∧ (∀ k, k ≤ 2 →
      remove_excessive_blank_lines ('a' :: (List.replicate k '\n' ++ ['b'])) =
        'a' :: (List.replicate k '\n' ++ ['b']))
    ∧ remove_excessive_blank_lines ("\n\n".toList) = "\n\n".toList
    ∧ remove_excessive_blank_lines (List.replicate 5 '\n') = List.replicate 2 '\n'
    ∧ remove_excessive_blank_lines ("a\n \n\t\n \nb".toList) = "a\n\nb".toList := by
  refine ⟨?_, ?_, by decide, by decide, by decide⟩
  · intro k hk
    obtain ⟨d, rfl⟩ := Nat.exists_eq_add_of_le hk
    rw [show (3 + d) = d + 3 by omega]
    rw [show List.replicate (d + 3) '\n' = '\n' :: List.replicate (d + 2) '\n' from rfl]
    unfold remove_excessive_blank_lines
    simp only [List.length_cons, List.cons_append, List.length_append,
      List.length_replicate, List.length_singleton, List.length_nil]
    rw [show rexblGo (d + 2 + 1 + 1 + 1)
        ('a' :: '\n' :: (List.replicate (d + 2) '\n' ++ ['b'])) =
      'a' :: rexblGo (d + 2 + 1 + 1)
        ('\n' :: (List.replicate (d + 2) '\n' ++ ['b'])) by
        simp [rexblGo]]
    rw [rexblGo_collapse d (d + 2 + 1 + 1) (by omega)]
  · intro k hk
    interval_cases k <;> decide

/-- C1 witness: concrete instances of the quantified parts at `k = 5`
and `k = 2`. -/
theorem claim1_blank_line_normalizer_witness :
    remove_excessive_blank_lines ('a' :: (List.replicate 5 '\n' ++ ['b'])) =
      ['a', '\n', '\n', 'b'] ∧
    remove_excessive_blank_lines ('a' :: (List.replicate 2 '\n' ++ ['b'])) =
      'a' :: (List.replicate 2 '\n' ++ ['b']) :=
  ⟨claim1_blank_line_normalizer.1 5 (by omega),
    claim1_blank_line_normalizer.2.1 2 (by omega)⟩

/-- C2 counterexample: `remove_comments` is not idempotent.  Removing the
inner `\iffalse\fi` from `\if\iffalse\fifalse X \fi` splices the
remaining text into a fresh `\iffalse ... \fi`, which only a second
application removes. -/
theorem claim2_idempotence_counterexample :
    remove_comments (remove_comments ("\\if\\iffalse\\fifalse X \\fi".toList)) ≠
      remove_comments ("\\if\\iffalse\\fifalse X \\fi".toList) := by
  decide

/-- C2 (amended): comment stripping is idempotent at every text whose
first application leaves no unescaped `%`, no `\begin{comment}` token and
no `\iffalse` — i.e. whenever one application removes all comment
starters instead of splicing new ones together. -/
theorem claim2_strip_comments_idempotent (s : List Char)
    (h1 : noUnescPct none (remove_comments s) = true)
    (h2 : hasBeginTok (remove_comments s) = false)
    (h3 : hasIffalseTok (remove_comments s) = false) :
    remove_comments (remove_comments s) = remove_comments s :=
  remove_comments_id_of_clean (remove_comments s) h1 h2 h3

/-- C2 witness: a text with a line comment, an escaped percent and a
block comment, idempotent after one application. -/
theorem claim2_strip_comments_idempotent_witness :
    remove_comments (remove_comments
        ("a%x\n\\iffalse hid\\fi b\\%c".toList)) =
      remove_comments ("a%x\n\\iffalse hid\\fi b\\%c".toList) :=
  claim2_strip_comments_idempotent ("a%x\n\\iffalse hid\\fi b\\%c".toList)
    (by decide) (by decide) (by decide)

/-- C3 counterexample: an escaped `\%` IS removed by comment stripping
when it lies in the trailing text of a comment opened by an earlier
unescaped `%` on the same line: `a%\%b` strips to `a`, and the output no
longer contains `\%`. -/
theorem claim3_escaped_percent_counterexample :
    hasSubstring ("\\%".toList) ("a%\\%b".toList) = true ∧
    remove_comments ("a%\\%b".toList) = "a".toList ∧
    hasSubstring ("\\%".toList) (remove_comments ("a%\\%b".toList)) = false := by
  decide

/-- C3 (amended): an escaped `\%` never *starts* a comment — a text all
of whose `%` are escaped (and which has no comment blocks) is returned
unchanged — and every `%` not immediately preceded by a backslash and not
itself inside an earlier comment match is removed together with all
trailing text through end of line, the `%` included but the terminating
newline kept.  (A `\%` inside removed comment text disappears with it.) -/
theorem claim3_comment_removal_semantics :
    (∀ s, noUnescPct none s = true → hasBeginTok s = false →
      hasIffalseTok s = false → remove_comments s = s)
    ∧ (∀ u v w, noUnescPct none u = true → lastOpt none u ≠ some '\\' →
        '\n' ∉ v →
        stripLineComments (u ++ ('%' :: (v ++ ('\n' :: w)))) =
          u ++ ('\n' :: stripLineComments w)) := by
  constructor
  · exact fun s h1 h2 h3 => remove_comments_id_of_clean s h1 h2 h3
  · intro u v w hu hlast hv
    unfold stripLineComments
    have h := stripLineGo_comment u none v w hu hlast hv
    rw [h]
    have hw : stripLineGo (some '\n') false w = stripLineGo none false w := by
      cases w with
      | nil => rfl
      | cons d t =>
        by_cases hd : d = '%'
        · subst hd
          have e1 : stripLineGo (some '\n') false ('%' :: t) =
              stripLineGo (some '\n') true t := by simp [stripLineGo]
          have e2 : stripLineGo none false ('%' :: t) =
              stripLineGo none true t := by simp [stripLineGo]
          rw [e1, e2]
          exact stripLineGo_dropping_prev t (some '\n') none
        · simp [stripLineGo, hd]
    rw [hw]

/-- C3 witness: both conjuncts at concrete texts. -/
theorem claim3_comment_removal_semantics_witness :
    remove_comments ("x\\%y".toList) = "x\\%y".toList ∧
    stripLineComments ("x\\%a".toList ++ ('%' :: (" hi".toList ++ ('\n' :: "z".toList)))) =
      "x\\%a".toList ++ ('\n' :: stripLineComments ("z".toList)) :=
  ⟨claim3_comment_removal_semantics.1 ("x\\%y".toList) (by decide) (by decide) (by decide),
    claim3_comment_removal_semantics.2 ("x\\%a".toList) (" hi".toList) ("z".toList)
      (by decide) (by decide) (by decide)⟩

/-- C4: expanding `root.tex` = `\input{a}` with `a.tex` = `\input{b}` and
`b.tex` = `X` (all in `proj/`) yields exactly `X`: it contains `X` and no
residual `\input`; and with `root.tex` = `\input{sub/a}`, `sub/a.tex` =
`\input{b}`, the nested directive resolves against `sub/` (the included
file's own directory), picking `sub/b.tex` = `Y` over the decoy root
`b.tex` = `WRONG`. -/
theorem claim4_nested_expansion :
    expand_input_commands 3 fsNested ("\\input\x7ba\x7d".toList) ["proj".toList] =
      some ("X".toList, [])
    ∧ hasSubstring ("X".toList) ("X".toList) = true
    ∧ hasSubstring ("\\input".toList) ("X".toList) = false
    ∧ expand_input_commands 3 fsNestedSub ("\\input\x7bsub/a\x7d".toList)
        ["proj".toList] = some ("Y".toList, []) := by
  refine ⟨by decide, by decide, by decide, by decide⟩

/-- C5: a directive whose target does not exist (here: the empty
filesystem) is dropped from the output, a warning naming the resolved
absolute path is emitted, and processing continues with the surrounding
text, which is preserved verbatim. -/
theorem claim5_missing_include (a b : List Char) (dir : FsPath) (fuel : Nat)
    (ha : '\\' ∉ a) (hb : '\\' ∉ b) :
    expand_input_commands (fuel + 2) (fun _ => none)
        (a ++ ("\\input\x7bmissing\x7d".toList ++ b)) dir =
      some (a ++ b, [dir ++ ["missing.tex".toList]]) := by
  have h1 := findDirective_pre a b ha
  have h2 := findDirective_none_of_no_backslash b hb
  rw [show fuel + 2 = (fuel + 1) + 1 from rfl]
  rw [expand_input_commands, h1]
  simp only
  rw [show pyStrip ("missing".toList) = "missing".toList from rfl]
  rw [show splitextHasExt ("missing".toList) = false from rfl]
  simp only [Bool.false_eq_true, if_false]
  rw [show resolveComponents dir ("missing".toList ++ ".tex".toList) =
    dir ++ ["missing.tex".toList] from rfl]
  rw [expand_input_commands, h2]

/-- C5 witness: concrete surrounding text. -/
theorem claim5_missing_include_witness :
    expand_input_commands 9 (fun _ => none)
        ("A ".toList ++ ("\\input\x7bmissing\x7d".toList ++ " B".toList))
        ["proj".toList] =
      some ("A ".toList ++ " B".toList, [["proj".toList, "missing.tex".toList]]) :=
  claim5_missing_include ("A ".toList) (" B".toList) ["proj".toList] 7
    (by decide) (by decide)

/-- C10: only `\input` or `\include` followed by optional whitespace and
a brace are inclusion directives.  Commands merely beginning with those
letters, such as `\includegraphics{...}` and `\includepdf{...}`, are
never expanded and appear verbatim in the output; `\include` with
whitespace before the brace IS a directive (here: consumed, with a
warning, since its target is missing). -/
theorem claim10_directive_pattern (fuel : Nat) (fs : FsPath → Option (List Char))
    (dir : FsPath) (b : List Char) (hb : '\\' ∉ b) :
    expand_input_commands (fuel + 1) fs
        ("\\includegraphics\x7b".toList ++ (b ++ ['\x7d'])) dir =
      some ("\\includegraphics\x7b".toList ++ (b ++ ['\x7d']), [])
    ∧ expand_input_commands (fuel + 1) fs
        ("\\includepdf\x7b".toList ++ (b ++ ['\x7d'])) dir =
      some ("\\includepdf\x7b".toList ++ (b ++ ['\x7d']), [])
    ∧ expand_input_commands 2 (fun _ => none)
        ("\\include  \x7bz\x7d".toList) ["d".toList] =
      some ([], [["d".toList, "z.tex".toList]]) := by
  refine ⟨?_, ?_, by decide⟩
  · exact expand_no_directive fuel fs _ dir (findDirective_ig_none b hb)
  · exact expand_no_directive fuel fs _ dir (findDirective_ipdf_none b hb)

/-- C10 witness: a concrete graphics argument. -/
theorem claim10_directive_pattern_witness :
    expand_input_commands 4 (fun _ => none)
        ("\\includegraphics\x7b".toList ++ ("fig".toList ++ ['\x7d'])) [] =
      some ("\\includegraphics\x7b".toList ++ ("fig".toList ++ ['\x7d']), []) :=
  (claim10_directive_pattern 3 (fun _ => none) [] ("fig".toList) (by decide)).1

/-- C6: a brace-delimited graphics filename without extension gets `.pdf`
appended and is resolved first as the literal path, then against the
conventional subdirectories: `\includegraphics{plot}` with only
`figures/plot.pdf` existing resolves there; with the literal path also
existing, the literal path wins.  A filename with a different existing
extension (`diagram.png`) is never added to the PDF reference set, for
every filesystem and working directory. -/
theorem claim6_graphics_resolution :
    find_used_pdfs existsFiguresPlot cwd0 ("\\includegraphics\x7bplot\x7d".toList) =
      [["proj".toList, "figures".toList, "plot.pdf".toList]]
    ∧ find_used_pdfs existsBothPlot cwd0 ("\\includegraphics\x7bplot\x7d".toList) =
      [["proj".toList, "plot.pdf".toList]]
    ∧ ∀ (existsF : FsPath → Bool) (cwd : FsPath),
        find_used_pdfs existsF cwd ("\\includegraphics\x7bdiagram.png\x7d".toList) =
          [] := by
  refine ⟨by decide, by decide, ?_⟩
  intro existsF cwd
  rfl

/-- C7 counterexample: NOT every `.pdf`-suffixed token inside a caption's
braces is extracted: in `\caption{a.pdf b.pdf}` with both `a.pdf` and
`b.pdf` existing in the working directory, only `a.pdf` enters the
reference set — the single non-overlapping match of the caption pattern
ends at the closing brace, past `b.pdf`. -/
theorem claim7_caption_any_token_counterexample :
    capTwoTokens ("a".toList) ("b".toList) =
      "\\caption\x7ba.pdf b.pdf\x7d".toList
    ∧ ["proj".toList, "a.pdf".toList] ∈
        find_used_pdfs existsAB cwd0 ("\\caption\x7ba.pdf b.pdf\x7d".toList)
    ∧ ["proj".toList, "b.pdf".toList] ∉
        find_used_pdfs existsAB cwd0 ("\\caption\x7ba.pdf b.pdf\x7d".toList) := by
  decide

/-- C7 (amended): for each `\caption{` occurrence the heuristic extracts
only the FIRST `.pdf`-suffixed token (on the same line, with a `}`
after it); later `.pdf` tokens inside the same caption are skipped, since
the match is non-overlapping and runs through the closing brace.  Stated
for arbitrary distinct class-character tokens `T1`, `T2` in
`\caption{T1.pdf T2.pdf}` with both files existing: `T1.pdf` is
referenced, `T2.pdf` is not. -/
theorem claim7_caption_first_token_only (t1 t2 : List Char)
    (h1 : t1 ≠ []) (h2 : t2 ≠ [])
    (hc1 : ∀ c ∈ t1, isClassChar c = true)
    (hc2 : ∀ c ∈ t2, isClassChar c = true)
    (hne : t1 ≠ t2) :
    (cwd0 ++ [t1 ++ ".pdf".toList]) ∈
      find_used_pdfs (existsTwoTokens t1 t2) cwd0 (capTwoTokens t1 t2)
    ∧ (cwd0 ++ [t2 ++ ".pdf".toList]) ∉
      find_used_pdfs (existsTwoTokens t1 t2) cwd0 (capTwoTokens t1 t2) := by
  have hms : find_used_pdfs (existsTwoTokens t1 t2) cwd0 (capTwoTokens t1 t2) =
      [cwd0 ++ [t1 ++ ".pdf".toList]] := by
    unfold find_used_pdfs
    rw [scanCmd_capTwo ("includegraphics".toList) true t1 t2 rfl hc1 hc2,
      scanCmd_capTwo ("includepdf".toList) true t1 t2 rfl hc1 hc2,
      scanCmd_capTwo ("pdfximage".toList) false t1 t2 rfl hc1 hc2,
      scanCaption_capTwo t1 t2 h1 hc1 hc2]
    simp only [List.nil_append]
    rw [List.foldl_cons, List.foldl_nil]
    apply processPdfName_token (existsTwoTokens t1 t2) t1 h1 hc1
    unfold existsTwoTokens
    simp
  refine ⟨?_, ?_⟩
  · rw [hms]
    exact List.mem_singleton.mpr rfl
  · rw [hms]
    intro hmem
    have heq : cwd0 ++ [t2 ++ ".pdf".toList] = cwd0 ++ [t1 ++ ".pdf".toList] :=
      List.mem_singleton.mp hmem
    have h3 : t2 ++ ".pdf".toList = t1 ++ ".pdf".toList := by
      have := List.append_cancel_left heq
      simpa using this
    have h4 : t2 = t1 := List.append_cancel_right h3
    exact hne h4.symm

/-- C7 witness: the amended theorem at concrete tokens `x`, `y`. -/
theorem claim7_caption_first_token_only_witness :
    (cwd0 ++ ["x".toList ++ ".pdf".toList]) ∈
      find_used_pdfs (existsTwoTokens ("x".toList) ("y".toList)) cwd0
        (capTwoTokens ("x".toList) ("y".toList))
    ∧ (cwd0 ++ ["y".toList ++ ".pdf".toList]) ∉
      find_used_pdfs (existsTwoTokens ("x".toList) ("y".toList)) cwd0
        (capTwoTokens ("x".toList) ("y".toList)) :=
  claim7_caption_first_token_only ("x".toList) ("y".toList) (by decide) (by decide)
    (by decide) (by decide) (by decide)

/-- C8: with `--delete-unused-pdf` the deletion pass attempts exactly the
set difference of all project PDFs minus the used set, so (with all
removals succeeding) it deletes exactly that difference and never touches
a referenced PDF; concretely, with `{a,b,c}.pdf` on disk and `a.pdf`
referenced, exactly `{b.pdf, c.pdf}` go; and when removing `b.pdf`
fails, `c.pdf` is still deleted and the failure is reported. -/
theorem claim8_delete_unused_pdfs (allFiles : List FsPath)
    (cwd outputAbs : FsPath) (used : List FsPath) (removeOk : FsPath → Bool) :
    (∀ p, p ∈ (delete_unused_files allFiles cwd outputAbs used false true
          (fun _ => true)).pdfDeleted ↔
        (p ∈ find_all_pdfs_in_project allFiles cwd ∧ p ∉ used))
    ∧ (∀ p, p ∈ used →
        p ∉ (delete_unused_files allFiles cwd outputAbs used false true
          removeOk).pdfDeleted)
    ∧ (delete_unused_files pdfABC cwd0 outRoot [["proj".toList, "a.pdf".toList]]
        false true (fun _ => true)).pdfDeleted =
        [["proj".toList, "b.pdf".toList], ["proj".toList, "c.pdf".toList]]
    ∧ (delete_unused_files pdfABC cwd0 outRoot [["proj".toList, "a.pdf".toList]]
        false true removeFailsB).pdfDeleted =
        [["proj".toList, "c.pdf".toList]]
    ∧ (delete_unused_files pdfABC cwd0 outRoot [["proj".toList, "a.pdf".toList]]
        false true removeFailsB).pdfFailed =
        [["proj".toList, "b.pdf".toList]] := by
  refine ⟨?_, ?_, by decide, by decide, by decide⟩
  · intro p
    unfold delete_unused_files
    simp [List.mem_filter]
  · intro p hp hmem
    unfold delete_unused_files at hmem
    simp only [if_pos trivial] at hmem
    rw [List.mem_filter, List.mem_filter] at hmem
    simp only [decide_eq_true_eq] at hmem
    exact hmem.1.2 hp

/-- C8 witness: the set-difference characterization and the
referenced-file-intact part at the concrete scenario. -/
theorem claim8_delete_unused_pdfs_witness :
    (["proj".toList, "b.pdf".toList] ∈
        (delete_unused_files pdfABC cwd0 outRoot
          [["proj".toList, "a.pdf".toList]] false true (fun _ => true)).pdfDeleted ↔
      (["proj".toList, "b.pdf".toList] ∈ find_all_pdfs_in_project pdfABC cwd0 ∧
        ["proj".toList, "b.pdf".toList] ∉ [["proj".toList, "a.pdf".toList]]))
    ∧ ["proj".toList, "a.pdf".toList] ∉
        (delete_unused_files pdfABC cwd0 outRoot
          [["proj".toList, "a.pdf".toList]] false true removeFailsB).pdfDeleted :=
  ⟨(claim8_delete_unused_pdfs pdfABC cwd0 outRoot
      [["proj".toList, "a.pdf".toList]] removeFailsB).1 _,
    (claim8_delete_unused_pdfs pdfABC cwd0 outRoot
      [["proj".toList, "a.pdf".toList]] removeFailsB).2.1 _ (by decide)⟩

/-- C9: when the input file exists but input and output resolve to the
same absolute path, `main` reports the collision error and exits with
code 1; nothing is written, no expansion result is produced and nothing
is deleted. -/
theorem claim9_input_output_collision (fuel : Nat) (inputAbs outputAbs : FsPath)
    (inputContent : List Char) (fs : FsPath → Option (List Char))
    (allFiles : List FsPath) (existsF : FsPath → Bool) (cwd : FsPath)
    (removeOk : FsPath → Bool) (dtex dpdf : Bool)
    (h : inputAbs = outputAbs) :
    mainModel fuel true inputAbs outputAbs inputContent fs allFiles existsF cwd
        removeOk dtex dpdf =
      some ⟨1, none, emptyDelete, [MainError.inputEqualsOutput]⟩ := by
  simp [mainModel, h]

/-- C9 witness: a concrete collision. -/
theorem claim9_input_output_collision_witness :
    mainModel 5 true ["proj".toList, "main.tex".toList] ["proj".toList, "main.tex".toList]
        ("x".toList) (fun _ => none) [] (fun _ => false) ["proj".toList]
        (fun _ => true) true true =
      some ⟨1, none, emptyDelete, [MainError.inputEqualsOutput]⟩ :=
  claim9_input_output_collision 5 _ _ _ _ _ _ _ _ _ _ rfl

end LatexMerge
